import Mathlib

set_option maxRecDepth 10000

/-!
Verification of the notebook launcher cli.py: the upward project-root
walk, the salted SHA-1 password encoder, and the argument
translator/dispatcher of main. Python strings are embedded as
List Char, filesystem paths as lists of components of a resolved
absolute path, and the filesystem itself as a finite list of entries.
-/

namespace NbCli

/-! ## 32-bit arithmetic on Nat -/

/-- Truncation of a natural number to a 32-bit machine word; additions
inside the SHA-1 compression are reduced this way. -/
def w32 (n : Nat) : Nat := n % 4294967296

/-- Combine two naturals bit by bit, truncated to the given number of
bits; f receives one bit of each operand and returns the result bit. -/
def bitZip (f : Nat → Nat → Nat) : Nat → Nat → Nat → Nat
  | 0, _, _ => 0
  | fuel + 1, a, b => f (a % 2) (b % 2) + 2 * bitZip f fuel (a / 2) (b / 2)

/-- 32-bit exclusive or. -/
def xor32 (a b : Nat) : Nat := bitZip (fun x y => (x + y) % 2) 32 a b

/-- 32-bit bitwise conjunction. -/
def and32 (a b : Nat) : Nat := bitZip (fun x y => x * y) 32 a b

/-- 32-bit bitwise disjunction. -/
def or32 (a b : Nat) : Nat := bitZip (fun x y => x + y - x * y) 32 a b

/-- 32-bit bitwise complement; operands stay below 2 ^ 32 throughout the
SHA-1 computation. -/
def not32 (a : Nat) : Nat := 4294967295 - w32 a

/-- Left rotation of a 32-bit word by k bits. -/
def rotl (k n : Nat) : Nat := w32 (n * 2 ^ k) + n / 2 ^ (32 - k)

/-! ## SHA-1 (FIPS 180-4), the digest behind hashlib.new with name sha1
in make_password. Messages and digests are lists of byte values. -/

/-- Big-endian byte rendering of a natural number on a fixed number of
bytes. -/
def beBytes : Nat → Nat → List Nat
  | 0, _ => []
  | k + 1, n => beBytes k (n / 256) ++ [n % 256]

/-- Group a byte list into big-endian 32-bit words; a trailing group of
fewer than four bytes is dropped (padding always yields a multiple of
four). -/
def toWords : List Nat → List Nat
  | a :: b :: c :: d :: rest => (((a * 256 + b) * 256 + c) * 256 + d) :: toWords rest
  | _ => []

/-- SHA-1 padding: a 0x80 byte, zeros up to 56 bytes modulo 64, then the
bit length on eight big-endian bytes. -/
def sha1pad (m : List Nat) : List Nat :=
  m ++ [128] ++ List.replicate ((119 - m.length % 64) % 64) 0 ++ beBytes 8 (8 * m.length)

/-- Round constants of SHA-1. -/
def sha1K (i : Nat) : Nat :=
  if i < 20 then 0x5A827999
  else if i < 40 then 0x6ED9EBA1
  else if i < 60 then 0x8F1BBCDC
  else 0xCA62C1D6

/-- Round functions of SHA-1. -/
def sha1F (i b c d : Nat) : Nat :=
  if i < 20 then or32 (and32 b c) (and32 (not32 b) d)
  else if i < 40 then xor32 (xor32 b c) d
  else if i < 60 then or32 (or32 (and32 b c) (and32 b d)) (and32 c d)
  else xor32 (xor32 b c) d

/-- Extend the message schedule; the accumulator holds the words already
produced, most recent first, and each new word is the rotation by one of
the exclusive or of the words three, eight, fourteen and sixteen places
back. -/
def extendW : Nat → List Nat → List Nat
  | 0, acc => acc
  | k + 1, acc =>
    extendW k (rotl 1 (xor32 (xor32 (acc.getD 2 0) (acc.getD 7 0))
      (xor32 (acc.getD 13 0) (acc.getD 15 0))) :: acc)

/-- The eighty-word message schedule of one block. -/
def sha1schedule (ws : List Nat) : List Nat := (extendW 64 ws.reverse).reverse

/-- One SHA-1 round on the five-word state. -/
def sha1round (i w : Nat) : Nat × Nat × Nat × Nat × Nat → Nat × Nat × Nat × Nat × Nat
  | (a, b, c, d, e) =>
    (w32 (rotl 5 a + sha1F i b c d + e + sha1K i + w), a, rotl 30 b, c, d)

/-- Run the scheduled words through the eighty rounds. -/
def sha1rounds : Nat → List Nat → Nat × Nat × Nat × Nat × Nat → Nat × Nat × Nat × Nat × Nat
  | _, [], st => st
  | i, w :: ws, st => sha1rounds (i + 1) ws (sha1round i w st)

/-- Compression of one sixteen-word block into the running state. -/
def sha1compress (st : Nat × Nat × Nat × Nat × Nat) (ws : List Nat) :
    Nat × Nat × Nat × Nat × Nat :=
  match sha1rounds 0 (sha1schedule ws) st, st with
  | (a, b, c, d, e), (h0, h1, h2, h3, h4) =>
    (w32 (h0 + a), w32 (h1 + b), w32 (h2 + c), w32 (h3 + d), w32 (h4 + e))

/-- Process the padded message, sixteen words per block. -/
def sha1process : List Nat → Nat × Nat × Nat × Nat × Nat → Nat × Nat × Nat × Nat × Nat
  | w0 :: w1 :: w2 :: w3 :: w4 :: w5 :: w6 :: w7 ::
    w8 :: w9 :: w10 :: w11 :: w12 :: w13 :: w14 :: w15 :: rest, st =>
    sha1process rest (sha1compress st
      [w0, w1, w2, w3, w4, w5, w6, w7, w8, w9, w10, w11, w12, w13, w14, w15])
  | _, st => st

/-- SHA-1 digest of a byte list, as twenty bytes. -/
def sha1 (msg : List Nat) : List Nat :=
  match sha1process (toWords (sha1pad msg))
      (0x67452301, 0xEFCDAB89, 0x98BADCFE, 0x10325476, 0xC3D2E1F0) with
  | (h0, h1, h2, h3, h4) =>
    beBytes 4 h0 ++ beBytes 4 h1 ++ beBytes 4 h2 ++ beBytes 4 h3 ++ beBytes 4 h4

/-! ## Hex rendering and string encoding -/

/-- Lowercase hexadecimal digit of a value below sixteen. -/
def hexDigit (n : Nat) : Char :=
  match n with
  | 0 => '0' | 1 => '1' | 2 => '2' | 3 => '3' | 4 => '4'
  | 5 => '5' | 6 => '6' | 7 => '7' | 8 => '8' | 9 => '9'
  | 10 => 'a' | 11 => 'b' | 12 => 'c' | 13 => 'd' | 14 => 'e'
  | _ => 'f'

/-- Hexadecimal digits of a positive number, most significant first; the
first argument is recursion fuel, always called with at least the value
itself. -/
def toHexAux : Nat → Nat → List Char
  | 0, _ => []
  | fuel + 1, n => if n = 0 then [] else toHexAux fuel (n / 16) ++ [hexDigit (n % 16)]

/-- Minimal lowercase hexadecimal rendering of a natural number, as
Python format with code x produces. -/
def toHex (n : Nat) : List Char :=
  if n = 0 then ['0'] else toHexAux n n

/-- Zero-padded lowercase hexadecimal rendering to a minimum width, the
Python format used for the salt and for each digest byte. -/
def hexPad (width n : Nat) : List Char :=
  List.replicate (width - (toHex n).length) '0' ++ toHex n

/-- Two lowercase hex digits per byte, the hexdigest rendering. -/
def bytesToHex : List Nat → List Char
  | [] => []
  | b :: bs => hexDigit (b / 16) :: hexDigit (b % 16) :: bytesToHex bs

/-- Hex digest of a message, as hashlib hexdigest returns it. -/
def sha1hexdigest (msg : List Nat) : List Char := bytesToHex (sha1 msg)

/-- UTF-8 bytes of one character. -/
def utf8Char (c : Char) : List Nat :=
  let n := c.toNat
  if n < 128 then [n]
  else if n < 2048 then [192 + n / 64, 128 + n % 64]
  else if n < 65536 then [224 + n / 4096, 128 + n / 64 % 64, 128 + n % 64]
  else [240 + n / 262144, 128 + n / 4096 % 64, 128 + n / 64 % 64, 128 + n % 64]

/-- UTF-8 encoding of a string, as the Python encode call with codec
utf-8 produces. -/
def utf8Encode (s : List Char) : List Nat := (s.map utf8Char).flatten

/-- ASCII encoding of a string; in cli.py it is only applied to hex
salts, which are pure ASCII. -/
def asciiEncode (s : List Char) : List Nat := s.map Char.toNat

/-- Join a list of strings with a colon, the Python str.join used in
make_password. -/
def joinColon : List (List Char) → List Char
  | [] => []
  | [x] => x
  | x :: xs => x ++ ':' :: joinColon xs

/-- Split a string at colons, never dropping fields; the inverse notion
used to state the three-field shape of the credential. -/
def splitCols : List Char → List (List Char)
  | [] => [[]]
  | c :: cs =>
    if c = ':' then [] :: splitCols cs
    else (c :: (splitCols cs).headD []) :: (splitCols cs).tail

/-! ## make_password (cli.py lines 40 to 46) -/

/-- make_password from cli.py: the salt is 4 * salt_len random bits
rendered as zero-padded lowercase hex of width salt_len = 12, and the
credential joins the algorithm tag, the salt and the SHA-1 hex digest of
the UTF-8 plaintext followed by the ASCII salt with colons. The draw of
random.getrandbits is modelled as the input randbits. -/
def make_password (plain_password : List Char) (randbits : Nat) : List Char :=
  let salt_len := 12
  let salt := hexPad salt_len randbits
  let digest := sha1hexdigest (utf8Encode plain_password ++ asciiEncode salt)
  joinColon ["sha1".data, salt, digest]

/-! ## Filesystem model and the project-root walk (cli.py lines 29 to 70)

A resolved absolute path is the list of its components, the filesystem
root being the empty list. The filesystem is a finite list of entries,
each a path together with a flag that is true for a directory and false
for a regular file; a path not listed does not exist. Directory listing
order is the entry order, matching the unspecified order of iterdir. -/

structure FS where
  entries : List (List String × Bool)
  deriving DecidableEq, Repr

/-- Python is_dir: the path exists and is a directory. -/
def is_dir (fs : FS) (p : List String) : Bool :=
  match fs.entries.find? (fun e => e.1 == p) with
  | some e => e.2
  | none => false

/-- Python is_file: the path exists and is a regular file. -/
def is_file (fs : FS) (p : List String) : Bool :=
  match fs.entries.find? (fun e => e.1 == p) with
  | some e => !e.2
  | none => false

/-- Names of the direct children of a directory, in entry order, the
iterdir listing. -/
def iterdir (fs : FS) (d : List String) : List String :=
  fs.entries.filterMap (fun e => if e.1.dropLast = d then e.1.getLast? else none)

/-- is_project_root_dir from cli.py line 29: the parent of x when x is a
directory, nothing otherwise. -/
def is_project_root_dir (fs : FS) (x : List String) : Option (List String) :=
  if is_dir fs x then some x.dropLast else none

/-- is_project_root_file from cli.py line 32: the parent of x when x is
a regular file, nothing otherwise. -/
def is_project_root_file (fs : FS) (x : List String) : Option (List String) :=
  if is_file fs x then some x.dropLast else none

/-- ROOT_SPECS from cli.py line 35, as the lookup of the marker table:
the name .git maps to the directory classifier and pyproject.toml to the
file classifier. -/
def ROOT_SPECS (name : String) : Option (FS → List String → Option (List String)) :=
  if name = ".git" then some is_project_root_dir
  else if name = "pyproject.toml" then some is_project_root_file
  else none

/-- The classification of one directory entry by the marker table: the
result of the classifier that ROOT_SPECS assigns to its name, if any. -/
def marker_match (fs : FS) (d : List String) (name : String) : Option (List String) :=
  match ROOT_SPECS name with
  | some spec => spec fs (d ++ [name])
  | none => none

/-- The for loop of find_project_root_recurse: walk the listed names of
d, and return the first classifier result that is not none. -/
def scan_markers (fs : FS) (d : List String) : List String → Option (List String)
  | [] => none
  | name :: rest =>
    match ROOT_SPECS name with
    | some spec =>
      match spec fs (d ++ [name]) with
      | some found => some found
      | none => scan_markers fs d rest
    | none => scan_markers fs d rest

/-- Scan of one directory of the walk. -/
def scanDir (fs : FS) (d : List String) : Option (List String) :=
  scan_markers fs d (iterdir fs d)

/-- Body of find_project_root_recurse from cli.py line 48. The error
value models the ValueError that relative_to raises when d is not under
find_root; the recursive call catches it and returns none. The first
argument is recursion fuel: the wrapper below supplies the length of d
plus one, which can never run out because each recursive call drops the
last component of d, so the fuel-exhausted branch is unreachable. -/
def find_project_root_go (fs : FS) : Nat → List String → List String →
    Except Unit (Option (List String))
  | 0, _, _ => Except.ok none
  | fuel + 1, d, find_root =>
    if find_root <+: d then
      if d = find_root then Except.ok none
      else
        match scanDir fs d with
        | some found => Except.ok (some found)
        | none =>
          match find_project_root_go fs fuel d.dropLast find_root with
          | Except.error _ => Except.ok none
          | r => r
    else Except.error ()

/-- find_project_root_recurse from cli.py line 48. -/
def find_project_root_recurse (fs : FS) (d find_root : List String) :
    Except Unit (Option (List String)) :=
  find_project_root_go fs (d.length + 1) d find_root

/-- The search boundary computed by find_project_root lines 64 to 69:
the home directory when the starting directory is under it, otherwise
the filesystem root, which relative_to never rejects. -/
def search_boundary (home d : List String) : List String :=
  if home.isPrefixOf d then home else []

/-- find_project_root from cli.py line 63, taking the resolved starting
directory and the expanded home directory as inputs. The error branch is
unreachable, because the boundary is always a prefix of the start. -/
def find_project_root (fs : FS) (home directory : List String) :
    Option (List String) :=
  match find_project_root_recurse fs directory (search_boundary home directory) with
  | Except.ok r => r
  | Except.error _ => none

/-- Base name of a path; the empty string for the filesystem root, as
with Python Path name. -/
def pathName (p : List String) : String := p.getLastD ""

/-- The kernel name of cli.py line 99: the fixed fallback when no root
was found, otherwise the base name of the root. -/
def kernel_name_of (root : Option (List String)) : String :=
  match root with
  | none => "default"
  | some r => pathName r

/-! ## The argument translator and dispatcher (main, cli.py lines 72 to
168) -/

/-- The parsed flags of main. The plaintext password is kept as a
character list because make_password consumes it character-wise. -/
structure Args where
  ip : Option String
  nb_verbose : Bool
  only_update_kernel : Bool
  no_password : Bool
  notebook : Bool
  python : Option String
  password : Option (List Char)
  deriving DecidableEq, Repr

/-- The ambient state main reads: probe results of which, the running
interpreter, the data-directory variable (none standing for unset or
empty), the home directory, the resolved current directory, the
filesystem, importability of the three optional collaborators, the
random bits drawn for a password, and the passthrough arguments. -/
structure Env where
  which_python3 : Option String
  sys_executable : String
  jupyter_data_dir_env : Option (List String)
  home : List String
  cwd : List String
  fs : FS
  ipykernel_importable : Bool
  jupyterlab_importable : Bool
  jupyter_core_importable : Bool
  salt : Nat
  rest_of_args : List (List Char)
  deriving DecidableEq, Repr

/-- Which delegated entry point main hands control to. -/
inductive ServerCall
  | idle
  | notebookServer
  | labServer
  deriving DecidableEq, Repr

/-- Observable outcome of one run of main: the final argument vector,
the exit code main itself sets, the server invoked, the kernel identity
and side effects of the kernel reinstall, and the data directory written
into the environment. -/
structure MainResult where
  argv : List (List Char)
  exit_code : Option Nat
  server : ServerCall
  kernel_name : String
  kernel_path : List String
  python_executable : String
  wrote_kernel_spec : Bool
  warned_missing_ipykernel : Bool
  env_jupyter_data_dir : List String
  deriving DecidableEq, Repr

/-- Python string truthiness choice between an optional value and a
fallback, as the or chain of cli.py line 88 behaves. -/
def or_truthy (a : Option String) (b : String) : String :=
  match a with
  | some s => if s = "" then b else s
  | none => b

/-- main from cli.py lines 72 to 168, after argument parsing, as a pure
function of the parsed flags and the ambient state. Messages on the
error stream, the pause after the ipykernel warning and the resolution
to absolute of the data directory are not modelled. -/
def main (args : Args) (env : Env) : MainResult :=
  let argv0 := env.sys_executable.data :: env.rest_of_args
  let python_executable := or_truthy args.python (or_truthy env.which_python3 env.sys_executable)
  let jupyter_data_dir :=
    match env.jupyter_data_dir_env with
    | some p => p
    | none => env.home ++ [".local", "share", "jupyter"]
  let root := find_project_root env.fs env.home env.cwd
  let kernel_name := kernel_name_of root
  let kernel_path := jupyter_data_dir ++ ["kernels", kernel_name]
  let wrote := env.ipykernel_importable
  let argv1 := argv0 ++ ["--NotebookApp.ip".data,
    match args.ip with
    | some ip => ip.data
    | none => "127.0.0.1".data]
  let notebook1 := args.notebook || !env.jupyterlab_importable
  if args.only_update_kernel then
    { argv := argv1, exit_code := none, server := ServerCall.idle,
      kernel_name := kernel_name, kernel_path := kernel_path,
      python_executable := python_executable, wrote_kernel_spec := wrote,
      warned_missing_ipykernel := !env.ipykernel_importable,
      env_jupyter_data_dir := jupyter_data_dir }
  else
    let password1 := if !notebook1 && args.no_password then some [] else args.password
    let argv2 := argv1 ++ ["--NotebookApp.password".data,
      match password1 with
      | some p => make_password p env.salt
      | none => []]
    let argv3 := if args.no_password then
        argv2 ++ ["--NotebookApp.token".data, [],
          "--NotebookApp.password_required".data, "False".data]
      else argv2
    if notebook1 then
      if env.jupyter_core_importable then
        { argv := env.sys_executable.data :: "notebook".data :: argv3.tail,
          exit_code := none, server := ServerCall.notebookServer,
          kernel_name := kernel_name, kernel_path := kernel_path,
          python_executable := python_executable, wrote_kernel_spec := wrote,
          warned_missing_ipykernel := !env.ipykernel_importable,
          env_jupyter_data_dir := jupyter_data_dir }
      else
        { argv := argv3, exit_code := some 1, server := ServerCall.idle,
          kernel_name := kernel_name, kernel_path := kernel_path,
          python_executable := python_executable, wrote_kernel_spec := wrote,
          warned_missing_ipykernel := !env.ipykernel_importable,
          env_jupyter_data_dir := jupyter_data_dir }
    else
      { argv := argv3 ++ ["--MultiKernelManager.default_kernel_name".data, kernel_name.data],
        exit_code := none, server := ServerCall.labServer,
        kernel_name := kernel_name, kernel_path := kernel_path,
        python_executable := python_executable, wrote_kernel_spec := wrote,
        warned_missing_ipykernel := !env.ipykernel_importable,
        env_jupyter_data_dir := jupyter_data_dir }

/-- First value following a given token in an argument vector. -/
def valueAfter : List (List Char) → List Char → Option (List Char)
  | [], _ => none
  | [_], _ => none
  | x :: y :: rest, key => if x = key then some y else valueAfter (y :: rest) key

/-! ## Derived notions used to state the claims, and concrete fixtures -/

/-- Classification of the characters the encoder may emit inside salt
and digest fields: lowercase hexadecimal digits. -/
def isLowerHexChar (c : Char) : Bool :=
  (48 ≤ c.toNat && c.toNat ≤ 57) || (97 ≤ c.toNat && c.toNat ≤ 102)

/-- Value of a lowercase hexadecimal digit. -/
def hexDigitVal (c : Char) : Nat :=
  if c.toNat ≤ 57 then c.toNat - 48 else c.toNat - 87

/-- Number denoted by a hexadecimal string. -/
def hexVal (cs : List Char) : Nat :=
  cs.foldl (fun acc c => 16 * acc + hexDigitVal c) 0

/-- Salt field of a credential: the second colon-separated field. -/
def saltField (cred : List Char) : List Char := (splitCols cred).getD 1 []

/-- Digest field of a credential: the third colon-separated field. -/
def digestField (cred : List Char) : List Char := (splitCols cred).getD 2 []

/-- Directory tree of the scenario in the spec: a .git directory under
proj and a deeper starting directory below it. -/
def fsProj : FS := ⟨[(["home", "u", "proj", ".git"], true),
  (["home", "u", "proj", "sub"], true), (["home", "u", "proj", "sub", "x"], true)]⟩

/-- Tree whose only marker is a .git directory directly inside the home
directory. -/
def fsHomeGit : FS := ⟨[(["home", "u", ".git"], true), (["home", "u", "a"], true)]⟩

/-- Tree with a single .git directory marker. -/
def fsGitOnly : FS := ⟨[(["home", "u", "proj", ".git"], true)]⟩

/-- Flags of a run passing the notebook, no-password and password
options together. -/
def argsNbNoPwWithPw : Args := ⟨none, false, false, true, true, none, some ['x']⟩

/-- Flags of a lab-mode run passing only no-password. -/
def argsLabNoPw : Args := ⟨none, false, false, true, false, none, none⟩

/-- Flags of a notebook-mode run passing only no-password. -/
def argsNbNoPw : Args := ⟨none, false, false, true, true, none, none⟩

/-- Flags of a run passing only only-update-kernel. -/
def argsOnlyUpdate : Args := ⟨none, false, true, false, false, none, none⟩

/-- Flags of a run passing only the notebook option. -/
def argsNbFlag : Args := ⟨none, false, false, false, true, none, none⟩

/-- Ambient state with every collaborator importable and an empty
filesystem. -/
def envAll : Env := ⟨none, "py", none, [], [], ⟨[]⟩, true, true, true, 0, []⟩

/-- Ambient state where jupyter core is not importable although
jupyterlab is. -/
def envNoCore : Env := ⟨none, "py", none, [], [], ⟨[]⟩, true, true, false, 7, []⟩

/-! ## Lemmas on hex rendering and the credential shape -/

theorem hexDigit_lowerHex (n : Nat) : isLowerHexChar (hexDigit n) = true := by
  unfold hexDigit
  split <;> rfl

theorem ne_colon_of_hex {c : Char} (h : isLowerHexChar c = true) : c ≠ ':' := by
  intro he
  rw [he] at h
  exact absurd h (by decide)

theorem mem_toHexAux_hex : ∀ (fuel n : Nat) (c : Char), c ∈ toHexAux fuel n →
    isLowerHexChar c = true := by
  intro fuel
  induction fuel with
  | zero => intro n c h; simp [toHexAux] at h
  | succ f ih =>
    intro n c h
    by_cases h0 : n = 0
    · simp [toHexAux, h0] at h
    · rw [toHexAux, if_neg h0] at h
      rcases List.mem_append.mp h with h1 | h1
      · exact ih _ _ h1
      · rw [List.mem_singleton.mp h1]
        exact hexDigit_lowerHex _

theorem mem_toHex_hex (n : Nat) (c : Char) (h : c ∈ toHex n) :
    isLowerHexChar c = true := by
  unfold toHex at h
  by_cases h0 : n = 0
  · rw [if_pos h0] at h
    rw [List.mem_singleton.mp h]
    rfl
  · rw [if_neg h0] at h
    exact mem_toHexAux_hex _ _ _ h

theorem mem_hexPad_hex (w n : Nat) (c : Char) (h : c ∈ hexPad w n) :
    isLowerHexChar c = true := by
  unfold hexPad at h
  rcases List.mem_append.mp h with h1 | h1
  · rw [List.eq_of_mem_replicate h1]
    rfl
  · exact mem_toHex_hex _ _ h1

theorem mem_bytesToHex_hex : ∀ (bs : List Nat) (c : Char), c ∈ bytesToHex bs →
    isLowerHexChar c = true := by
  intro bs
  induction bs with
  | nil => intro c h; simp [bytesToHex] at h
  | cons b bs ih =>
    intro c h
    rw [bytesToHex] at h
    rcases List.mem_cons.mp h with h1 | h1
    · rw [h1]; exact hexDigit_lowerHex _
    · rcases List.mem_cons.mp h1 with h2 | h2
      · rw [h2]; exact hexDigit_lowerHex _
      · exact ih _ h2

theorem toHexAux_length_le : ∀ (fuel n k : Nat), n < 16 ^ k →
    (toHexAux fuel n).length ≤ k := by
  intro fuel
  induction fuel with
  | zero => intro n k _; simp [toHexAux]
  | succ f ih =>
    intro n k hk
    by_cases h0 : n = 0
    · simp [toHexAux, h0]
    · rw [toHexAux, if_neg h0]
      rcases k with _ | k1
      · rw [pow_zero] at hk; omega
      · rw [List.length_append, List.length_singleton]
        have h2 : n / 16 < 16 ^ k1 := by
          rw [Nat.div_lt_iff_lt_mul (by norm_num : (0 : Nat) < 16)]
          calc n < 16 ^ (k1 + 1) := hk
            _ = 16 ^ k1 * 16 := pow_succ 16 k1
        have h3 := ih (n / 16) k1 h2
        omega

theorem toHex_length_le (n k : Nat) (h1 : 1 ≤ k) (h2 : n < 16 ^ k) :
    (toHex n).length ≤ k := by
  unfold toHex
  by_cases h0 : n = 0
  · rw [if_pos h0, List.length_singleton]
    exact h1
  · rw [if_neg h0]
    exact toHexAux_length_le n n k h2

theorem hexPad_length (w n : Nat) (h1 : 1 ≤ w) (h2 : n < 16 ^ w) :
    (hexPad w n).length = w := by
  unfold hexPad
  rw [List.length_append, List.length_replicate]
  have := toHex_length_le n w h1 h2
  omega

theorem hexDigitVal_hexDigit (m : Nat) (h : m < 16) :
    hexDigitVal (hexDigit m) = m := by
  interval_cases m <;> rfl

theorem toHexAux_foldl : ∀ (fuel n acc : Nat), n ≤ fuel →
    (toHexAux fuel n).foldl (fun a c => 16 * a + hexDigitVal c) acc =
      acc * 16 ^ (toHexAux fuel n).length + n := by
  intro fuel
  induction fuel with
  | zero =>
    intro n acc h
    have h0 : n = 0 := Nat.le_zero.mp h
    simp [toHexAux, h0]
  | succ f ih =>
    intro n acc h
    by_cases h0 : n = 0
    · simp [toHexAux, h0]
    · rw [toHexAux, if_neg h0]
      rw [List.foldl_append, List.length_append, List.length_singleton]
      have hdiv : n / 16 < n := Nat.div_lt_self (by omega) (by norm_num)
      rw [ih (n / 16) acc (by omega)]
      rw [List.foldl_cons, List.foldl_nil]
      rw [hexDigitVal_hexDigit (n % 16) (Nat.mod_lt n (by norm_num))]
      have hdm : 16 * (n / 16) + n % 16 = n := Nat.div_add_mod n 16
      calc 16 * (acc * 16 ^ (toHexAux f (n / 16)).length + n / 16) + n % 16
          = acc * 16 ^ ((toHexAux f (n / 16)).length + 1) +
            (16 * (n / 16) + n % 16) := by ring
        _ = acc * 16 ^ ((toHexAux f (n / 16)).length + 1) + n := by rw [hdm]

theorem hexVal_toHex (n : Nat) : hexVal (toHex n) = n := by
  unfold hexVal toHex
  by_cases h0 : n = 0
  · rw [if_pos h0, h0]
    rfl
  · rw [if_neg h0]
    have := toHexAux_foldl n n 0 (le_refl n)
    simpa using this

theorem foldl_hex_zeros (k : Nat) :
    List.foldl (fun a c => 16 * a + hexDigitVal c) 0 (List.replicate k '0') = 0 := by
  induction k with
  | zero => rfl
  | succ m ih =>
    rw [List.replicate_succ, List.foldl_cons,
      show (16 * 0 + hexDigitVal '0') = 0 from by decide]
    exact ih

theorem hexVal_hexPad (w n : Nat) : hexVal (hexPad w n) = n := by
  unfold hexVal hexPad
  rw [List.foldl_append, foldl_hex_zeros]
  exact hexVal_toHex n

theorem hexPad_inj (w s1 s2 : Nat) (h : hexPad w s1 = hexPad w s2) : s1 = s2 := by
  have := congrArg hexVal h
  rwa [hexVal_hexPad, hexVal_hexPad] at this

theorem splitCols_append_colon : ∀ (a b : List Char), (∀ c ∈ a, c ≠ ':') →
    splitCols (a ++ ':' :: b) = a :: splitCols b := by
  intro a
  induction a with
  | nil =>
    intro b _
    simp [splitCols]
  | cons c a ih =>
    intro b h
    have hc : c ≠ ':' := h c (List.mem_cons_self c a)
    have ha := ih b (fun x hx => h x (List.mem_cons_of_mem c hx))
    rw [List.cons_append]
    simp only [splitCols, if_neg hc, ha]
    simp

theorem splitCols_no_colon : ∀ (a : List Char), (∀ c ∈ a, c ≠ ':') →
    splitCols a = [a] := by
  intro a
  induction a with
  | nil => intro _; rfl
  | cons c a ih =>
    intro h
    have hc : c ≠ ':' := h c (List.mem_cons_self c a)
    have ha := ih (fun x hx => h x (List.mem_cons_of_mem c hx))
    simp only [splitCols, if_neg hc, ha]
    simp

theorem make_password_eq (p : List Char) (s : Nat) :
    make_password p s = "sha1".data ++ ':' :: (hexPad 12 s ++ ':' ::
      sha1hexdigest (utf8Encode p ++ asciiEncode (hexPad 12 s))) := rfl

theorem make_password_splitCols (p : List Char) (s : Nat) :
    splitCols (make_password p s) = ["sha1".data, hexPad 12 s,
      sha1hexdigest (utf8Encode p ++ asciiEncode (hexPad 12 s))] := by
  rw [make_password_eq]
  rw [splitCols_append_colon _ _ (by decide)]
  rw [splitCols_append_colon _ _
    (fun c hc => ne_colon_of_hex (mem_hexPad_hex 12 s c hc))]
  rw [show splitCols (sha1hexdigest (utf8Encode p ++ asciiEncode (hexPad 12 s))) =
      [sha1hexdigest (utf8Encode p ++ asciiEncode (hexPad 12 s))] from
    splitCols_no_colon _
      (fun c hc => ne_colon_of_hex (mem_bytesToHex_hex _ c hc))]

theorem make_password_ne_nil (p : List Char) (s : Nat) : make_password p s ≠ [] := by
  rw [make_password_eq, show "sha1".data = ['s', 'h', 'a', '1'] from rfl]
  simp

theorem saltField_make_password (p : List Char) (s : Nat) :
    saltField (make_password p s) = hexPad 12 s := by
  rw [saltField, make_password_splitCols]
  rfl

theorem digestField_make_password (p : List Char) (s : Nat) :
    digestField (make_password p s) =
      sha1hexdigest (utf8Encode p ++ asciiEncode (hexPad 12 s)) := by
  rw [digestField, make_password_splitCols]
  rfl

/-! ## Claim theorems on the password encoder and the marker table -/

/-- C3: for every plaintext, with the 48 random salt bits modelled as an
input below 2 ^ 48, make_password returns a string of exactly three
colon-separated fields: the tag sha1, the salt as exactly 12 zero-padded
lowercase hexadecimal characters, and the SHA-1 hex digest of the UTF-8
plaintext followed by the ASCII salt. -/
theorem make_password_three_fields (plain : List Char) (randbits : Nat)
    (h : randbits < 2 ^ 48) :
    splitCols (make_password plain randbits) =
      ["sha1".data, hexPad 12 randbits,
        sha1hexdigest (utf8Encode plain ++ asciiEncode (hexPad 12 randbits))] ∧
    (hexPad 12 randbits).length = 12 ∧
    ∀ c ∈ hexPad 12 randbits, isLowerHexChar c = true := by
  refine ⟨make_password_splitCols plain randbits, ?_, ?_⟩
  · refine hexPad_length 12 randbits (by norm_num) ?_
    rw [show (16 : Nat) ^ 12 = 2 ^ 48 from by norm_num]
    exact h
  · exact fun c hc => mem_hexPad_hex 12 randbits c hc

/-- Closed instance of C3 at a concrete plaintext and salt. -/
theorem make_password_three_fields_witness : (hexPad 12 999).length = 12 :=
  (make_password_three_fields ("pw".data) 999 (by norm_num)).2.1

/-- C7: a directory entry matches the marker table exactly when it is a
.git entry that is a directory or a pyproject.toml entry that is a
regular file; no other name ever matches. -/
theorem marker_classification (fs : FS) (d : List String) (name : String) :
    marker_match fs d name ≠ none ↔
      (name = ".git" ∧ is_dir fs (d ++ [name]) = true) ∨
      (name = "pyproject.toml" ∧ is_file fs (d ++ [name]) = true) := by
  have hne : (".git" : String) ≠ "pyproject.toml" := by decide
  unfold marker_match ROOT_SPECS
  by_cases h1 : name = ".git"
  · subst h1
    rw [if_pos rfl]
    unfold is_project_root_dir
    cases hd : is_dir fs (d ++ [".git"]) <;> simp [hd, hne]
  · by_cases h2 : name = "pyproject.toml"
    · subst h2
      rw [if_neg (by decide), if_pos rfl]
      unfold is_project_root_file
      have hne2 : ("pyproject.toml" : String) ≠ ".git" := by decide
      cases hf : is_file fs (d ++ ["pyproject.toml"]) <;> simp [hf, hne2]
    · rw [if_neg h1, if_neg h2]
      simp [h1, h2]

/-- Closed instance of C7: the concrete .git directory marker matches. -/
theorem marker_classification_witness :
    marker_match fsGitOnly ["home", "u", "proj"] ".git" ≠ none :=
  (marker_classification fsGitOnly ["home", "u", "proj"] ".git").mpr
    (Or.inl ⟨rfl, by decide⟩)

/-! ## Lemmas on the project-root walk -/

theorem length_lt_of_ne {r d : List String} (h : r <+: d) (hne : d ≠ r) :
    r.length < d.length := by
  rcases Nat.lt_or_ge r.length d.length with h1 | h1
  · exact h1
  · exact absurd (List.IsPrefix.eq_of_length h (le_antisymm h.length_le h1))
      (fun e => hne e.symm)

theorem take_dropLast_eq {d : List String} {k : Nat} (h : k ≤ d.length - 1) :
    d.dropLast.take k = d.take k := by
  rw [List.dropLast_eq_take, List.take_take]
  rw [Nat.min_eq_left h]

theorem prefix_dropLast {r d : List String} (h : r <+: d) (hne : d ≠ r) :
    r <+: d.dropLast := by
  have hlen := length_lt_of_ne h hne
  have ht : r = d.take r.length := List.prefix_iff_eq_take.mp h
  rw [List.prefix_iff_eq_take, take_dropLast_eq (by omega)]
  exact ht

theorem ROOT_SPECS_result (name : String) (spec : FS → List String → Option (List String))
    (hs : ROOT_SPECS name = some spec) (fs : FS) (x r : List String)
    (hr : spec fs x = some r) : r = x.dropLast := by
  unfold ROOT_SPECS at hs
  by_cases h1 : name = ".git"
  · rw [if_pos h1] at hs
    cases hs
    unfold is_project_root_dir at hr
    by_cases hd : is_dir fs x = true
    · rw [if_pos hd] at hr
      exact (Option.some.inj hr).symm
    · rw [if_neg hd] at hr
      cases hr
  · rw [if_neg h1] at hs
    by_cases h2 : name = "pyproject.toml"
    · rw [if_pos h2] at hs
      cases hs
      unfold is_project_root_file at hr
      by_cases hd : is_file fs x = true
      · rw [if_pos hd] at hr
        exact (Option.some.inj hr).symm
      · rw [if_neg hd] at hr
        cases hr
    · rw [if_neg h2] at hs
      cases hs

theorem scan_markers_cons (fs : FS) (d : List String) (name : String)
    (rest : List String) :
    scan_markers fs d (name :: rest) =
      match ROOT_SPECS name with
      | some spec =>
        match spec fs (d ++ [name]) with
        | some found => some found
        | none => scan_markers fs d rest
      | none => scan_markers fs d rest := rfl

theorem scan_markers_cons_none (fs : FS) (d : List String) (name : String)
    (rest : List String) (hs : ROOT_SPECS name = none) :
    scan_markers fs d (name :: rest) = scan_markers fs d rest := by
  rw [scan_markers_cons, hs]

theorem scan_markers_cons_spec (fs : FS) (d : List String) (name : String)
    (rest : List String) (spec : FS → List String → Option (List String))
    (hs : ROOT_SPECS name = some spec) :
    scan_markers fs d (name :: rest) =
      match spec fs (d ++ [name]) with
      | some found => some found
      | none => scan_markers fs d rest := by
  rw [scan_markers_cons, hs]

theorem scan_markers_cons_hit (fs : FS) (d : List String) (name : String)
    (rest : List String) (spec : FS → List String → Option (List String))
    (found : List String) (hs : ROOT_SPECS name = some spec)
    (hr : spec fs (d ++ [name]) = some found) :
    scan_markers fs d (name :: rest) = some found := by
  rw [scan_markers_cons_spec fs d name rest spec hs, hr]

theorem scan_markers_cons_miss (fs : FS) (d : List String) (name : String)
    (rest : List String) (spec : FS → List String → Option (List String))
    (hs : ROOT_SPECS name = some spec) (hr : spec fs (d ++ [name]) = none) :
    scan_markers fs d (name :: rest) = scan_markers fs d rest := by
  rw [scan_markers_cons_spec fs d name rest spec hs, hr]

theorem scan_markers_eq_self (fs : FS) (d : List String) :
    ∀ (names : List String) (r : List String),
    scan_markers fs d names = some r → r = d := by
  intro names
  induction names with
  | nil => intro r h; simp [scan_markers] at h
  | cons name rest ih =>
    intro r h
    cases hs : ROOT_SPECS name with
    | none =>
      rw [scan_markers_cons_none fs d name rest hs] at h
      exact ih r h
    | some spec =>
      cases hr : spec fs (d ++ [name]) with
      | none =>
        rw [scan_markers_cons_miss fs d name rest spec hs hr] at h
        exact ih r h
      | some found =>
        rw [scan_markers_cons_hit fs d name rest spec found hs hr] at h
        have hfr : found = r := Option.some.inj h
        subst hfr
        have hres := ROOT_SPECS_result name spec hs fs (d ++ [name]) found hr
        rw [hres]
        exact List.dropLast_concat

theorem scanDir_eq_self (fs : FS) (d r : List String) (h : scanDir fs d = some r) :
    r = d :=
  scan_markers_eq_self fs d (iterdir fs d) r h

theorem git_mem_iterdir (fs : FS) (D : List String)
    (h : is_dir fs (D ++ [".git"]) = true) : ".git" ∈ iterdir fs D := by
  unfold is_dir at h
  cases hf : fs.entries.find? (fun e => e.1 == D ++ [".git"]) with
  | none =>
    rw [hf] at h
    cases h
  | some e =>
    have hmem : e ∈ fs.entries := List.mem_of_find?_eq_some hf
    have hpe := List.find?_some hf
    have hpath : e.1 = D ++ [".git"] := by simpa using hpe
    unfold iterdir
    rw [List.mem_filterMap]
    refine ⟨e, hmem, ?_⟩
    rw [hpath, List.dropLast_concat, if_pos rfl]
    exact List.getLast?_concat _

theorem scan_markers_git (fs : FS) (D : List String)
    (hgit : is_dir fs (D ++ [".git"]) = true) :
    ∀ names, ".git" ∈ names → ∃ r, scan_markers fs D names = some r := by
  intro names
  induction names with
  | nil => intro h; simp at h
  | cons name rest ih =>
    intro h
    cases hs : ROOT_SPECS name with
    | none =>
      have hne : name ≠ ".git" := by
        intro he
        rw [he] at hs
        unfold ROOT_SPECS at hs
        rw [if_pos rfl] at hs
        cases hs
      rw [scan_markers_cons_none fs D name rest hs]
      rcases List.mem_cons.mp h with h1 | h1
      · exact absurd h1.symm hne
      · exact ih h1
    | some spec =>
      cases hr : spec fs (D ++ [name]) with
      | some found =>
        exact ⟨found, scan_markers_cons_hit fs D name rest spec found hs hr⟩
      | none =>
        by_cases he : name = ".git"
        · subst he
          unfold ROOT_SPECS at hs
          rw [if_pos rfl] at hs
          cases hs
          unfold is_project_root_dir at hr
          rw [if_pos hgit] at hr
          cases hr
        · rw [scan_markers_cons_miss fs D name rest spec hs hr]
          rcases List.mem_cons.mp h with h1 | h1
          · exact absurd h1.symm he
          · exact ih h1

theorem scanDir_git (fs : FS) (D : List String)
    (hgit : is_dir fs (D ++ [".git"]) = true) : scanDir fs D = some D := by
  obtain ⟨r, hr⟩ := scan_markers_git fs D hgit (iterdir fs D) (git_mem_iterdir fs D hgit)
  have hrD := scan_markers_eq_self fs D (iterdir fs D) r hr
  unfold scanDir
  rw [hr, hrD]

theorem go_ok_of_prefix (fs : FS) (fuel : Nat) (d root : List String)
    (h : root <+: d) : find_project_root_go fs fuel d root ≠ Except.error () := by
  cases fuel with
  | zero => simp [find_project_root_go]
  | succ f =>
    simp only [find_project_root_go]
    rw [if_pos h]
    by_cases he : d = root
    · rw [if_pos he]
      simp
    · rw [if_neg he]
      cases hs : scanDir fs d with
      | some found => simp
      | none =>
        cases hr : find_project_root_go fs f d.dropLast root <;> simp

theorem go_boundary (fs : FS) (f : Nat) (root : List String) :
    find_project_root_go fs (f + 1) root root = Except.ok none := by
  simp only [find_project_root_go]
  rw [if_pos (List.prefix_refl root)]
  simp

theorem go_step (fs : FS) (f : Nat) (d root : List String) (hp : root <+: d)
    (hne : d ≠ root) :
    find_project_root_go fs (f + 1) d root =
      match scanDir fs d with
      | some found => Except.ok (some found)
      | none =>
        match find_project_root_go fs f d.dropLast root with
        | Except.error _ => Except.ok none
        | r => r := by
  simp only [find_project_root_go]
  rw [if_pos hp, if_neg hne]

theorem go_none (fs : FS) : ∀ (fuel : Nat) (d root : List String), d.length < fuel →
    root <+: d →
    (∀ k, root.length < k → k ≤ d.length → scanDir fs (d.take k) = none) →
    find_project_root_go fs fuel d root = Except.ok none := by
  intro fuel
  induction fuel with
  | zero =>
    intro d root hf _ _
    exact absurd hf (Nat.not_lt_zero _)
  | succ f ih =>
    intro d root hf hp hscan
    by_cases he : d = root
    · rw [he]
      exact go_boundary fs f root
    · rw [go_step fs f d root hp he]
      have hlen : root.length < d.length := length_lt_of_ne hp he
      have hdl : d.dropLast.length = d.length - 1 := List.length_dropLast d
      have hsd : scanDir fs d = none := by
        have := hscan d.length hlen (le_refl _)
        rwa [List.take_length] at this
      rw [hsd]
      have hrec := ih d.dropLast root (by omega) (prefix_dropLast hp he)
        (fun k hk1 hk2 => by
          rw [take_dropLast_eq (by omega)]
          exact hscan k hk1 (by omega))
      rw [hrec]

theorem go_finds (fs : FS) : ∀ (fuel : Nat) (d root D : List String), d.length < fuel →
    root <+: D → D ≠ root → D <+: d →
    scanDir fs D = some D →
    (∀ k, D.length < k → k ≤ d.length → scanDir fs (d.take k) = none) →
    find_project_root_go fs fuel d root = Except.ok (some D) := by
  intro fuel
  induction fuel with
  | zero =>
    intro d root D hf _ _ _ _ _
    exact absurd hf (Nat.not_lt_zero _)
  | succ f ih =>
    intro d root D hf hrD hDr hDd hscanD hclean
    have hdne : d ≠ root := by
      intro he
      have h1 : D.length ≤ root.length := by
        rw [← he]
        exact hDd.length_le
      exact hDr (List.IsPrefix.eq_of_length hrD (le_antisymm hrD.length_le h1)).symm
    have hp : root <+: d := hrD.trans hDd
    rw [go_step fs f d root hp hdne]
    by_cases heD : d = D
    · rw [heD, hscanD]
    · have hlenD : D.length < d.length := length_lt_of_ne hDd heD
      have hdl : d.dropLast.length = d.length - 1 := List.length_dropLast d
      have hsd : scanDir fs d = none := by
        have := hclean d.length hlenD (le_refl _)
        rwa [List.take_length] at this
      rw [hsd]
      have hrec := ih d.dropLast root D (by omega) hrD hDr
        (prefix_dropLast hDd heD) hscanD
        (fun k hk1 hk2 => by
          rw [take_dropLast_eq (by omega)]
          exact hclean k hk1 (by omega))
      rw [hrec]

theorem go_some_inv (fs : FS) : ∀ (fuel : Nat) (d root r : List String),
    root <+: d →
    find_project_root_go fs fuel d root = Except.ok (some r) →
    scanDir fs r = some r ∧ root <+: r := by
  intro fuel
  induction fuel with
  | zero =>
    intro d root r _ h
    simp [find_project_root_go] at h
  | succ f ih =>
    intro d root r hp h
    by_cases he : d = root
    · rw [he, go_boundary fs f root] at h
      simp at h
    · rw [go_step fs f d root hp he] at h
      cases hs : scanDir fs d with
      | some found =>
        rw [hs] at h
        have hfr : found = r := by simpa using h
        have hfd : found = d := scanDir_eq_self fs d found hs
        have hrd : r = d := by rw [← hfr, hfd]
        subst hrd
        refine ⟨?_, hp⟩
        rw [hs, hfd]
      | none =>
        rw [hs] at h
        cases hrec : find_project_root_go fs f d.dropLast root with
        | error e =>
          rw [hrec] at h
          simp at h
        | ok v =>
          rw [hrec] at h
          have hv : v = some r := by simpa using h
          rw [hv] at hrec
          exact ih d.dropLast root r (prefix_dropLast hp he) hrec

theorem recurse_no_error (fs : FS) (d root : List String) (h : root <+: d) :
    find_project_root_recurse fs d root ≠ Except.error () :=
  go_ok_of_prefix fs (d.length + 1) d root h

theorem search_boundary_prefix_start (home d : List String) :
    search_boundary home d <+: d := by
  unfold search_boundary
  by_cases h : home.isPrefixOf d = true
  · rw [if_pos h]
    exact List.isPrefixOf_iff_prefix.mp h
  · rw [if_neg h]
    exact List.nil_prefix

theorem find_some_inv (fs : FS) (home s r : List String)
    (h : find_project_root fs home s = some r) :
    scanDir fs r = some r ∧ search_boundary home s <+: r := by
  unfold find_project_root at h
  cases hrec : find_project_root_recurse fs s (search_boundary home s) with
  | error e =>
    rw [hrec] at h
    simp at h
  | ok v =>
    rw [hrec] at h
    simp at h
    rw [h] at hrec
    exact go_some_inv fs (s.length + 1) s (search_boundary home s) r
      (search_boundary_prefix_start home s) hrec

/-! ## Claim theorems on the root finder -/

/-- C1: when the nearest marker above the start is a .git directory held
in a directory D strictly below the search boundary, and the start is in
the subtree of D at or below the marker depth, find_project_root returns
D itself, and the kernel name is the base name of D. -/
theorem find_root_git_marker (fs : FS) (home s D : List String)
    (hb : search_boundary home s <+: D) (hbne : D ≠ search_boundary home s)
    (hDs : D <+: s) (_hsne : s ≠ D)
    (hgit : is_dir fs (D ++ [".git"]) = true)
    (hclean : ∀ k, k < s.length + 1 → D.length < k → scanDir fs (s.take k) = none) :
    find_project_root fs home s = some D ∧
    kernel_name_of (find_project_root fs home s) = pathName D := by
  have hscanD : scanDir fs D = some D := scanDir_git fs D hgit
  have hmain : find_project_root_go fs (s.length + 1) s (search_boundary home s) =
      Except.ok (some D) :=
    go_finds fs (s.length + 1) s (search_boundary home s) D (by omega) hb hbne hDs
      hscanD (fun k h1 h2 => hclean k (by omega) h1)
  have hfind : find_project_root fs home s = some D := by
    unfold find_project_root
    rw [show find_project_root_recurse fs s (search_boundary home s) =
      Except.ok (some D) from hmain]
  refine ⟨hfind, ?_⟩
  rw [hfind]
  rfl

/-- Closed instance of C1 at the scenario of the spec: home under
/home/u, a .git directory in /home/u/proj, start at /home/u/proj/sub/x;
the root is /home/u/proj and the kernel name is proj. -/
theorem find_root_git_marker_witness :
    find_project_root fsProj ["home", "u"] ["home", "u", "proj", "sub", "x"] =
      some ["home", "u", "proj"] ∧
    kernel_name_of (find_project_root fsProj ["home", "u"]
      ["home", "u", "proj", "sub", "x"]) = pathName ["home", "u", "proj"] :=
  find_root_git_marker fsProj ["home", "u"] ["home", "u", "proj", "sub", "x"]
    ["home", "u", "proj"] (by decide) (by decide) (by decide) (by decide)
    (by decide) (by decide)

/-- C2, counterexample to the claim as stated: with the marker directory
/home/u/proj/.git and start /home/u/proj, the walk reports exactly
/home/u/proj, the directory that holds the marker, and nothing else; the
claimed result, a directory strictly above the holder such as /home/u,
is not returned. -/
theorem root_above_marker_counterexample :
    find_project_root fsGitOnly ["home", "u"] ["home", "u", "proj"] =
      some ["home", "u", "proj"] ∧
    is_dir fsGitOnly (["home", "u", "proj"] ++ [".git"]) = true ∧
    ¬ ∃ r, find_project_root fsGitOnly ["home", "u"] ["home", "u", "proj"] = some r ∧
      r ≠ ["home", "u", "proj"] := by
  have h : find_project_root fsGitOnly ["home", "u"] ["home", "u", "proj"] =
      some ["home", "u", "proj"] := by decide
  refine ⟨h, by decide, ?_⟩
  rintro ⟨r, hr, hne⟩
  rw [h] at hr
  exact hne (Option.some.inj hr).symm

/-- C2 as amended: every root the finder reports is the directory that
contains the matched marker entry, that is, the parent of the marker
path itself, not a directory strictly above the holder. -/
theorem root_contains_marker (fs : FS) (home s r : List String)
    (h : find_project_root fs home s = some r) : scanDir fs r = some r :=
  (find_some_inv fs home s r h).1

/-- Closed instance of the amended C2. -/
theorem root_contains_marker_witness :
    scanDir fsGitOnly ["home", "u", "proj"] = some ["home", "u", "proj"] :=
  root_contains_marker fsGitOnly ["home", "u"] ["home", "u", "proj"]
    ["home", "u", "proj"] (by decide)

/-- C6: the boundary is the home directory when the start lies under it
and the filesystem root otherwise; the walk never raises on escape,
every reported root lies under the boundary, and a start equal to the
boundary immediately reports not found. -/
theorem boundary_invariants (fs : FS) (home s : List String) :
    search_boundary home s = (if home.isPrefixOf s then home else []) ∧
    find_project_root_recurse fs s (search_boundary home s) ≠ Except.error () ∧
    (∀ r, find_project_root fs home s = some r → search_boundary home s <+: r) ∧
    (s = search_boundary home s → find_project_root fs home s = none) := by
  refine ⟨rfl, ?_, ?_, ?_⟩
  · exact recurse_no_error fs s (search_boundary home s)
      (search_boundary_prefix_start home s)
  · intro r h
    exact (find_some_inv fs home s r h).2
  · intro he
    unfold find_project_root
    rw [← he]
    rw [show find_project_root_recurse fs s s = Except.ok none from
      go_boundary fs s.length s]

/-- Closed instance of C6: starting at the boundary yields none, and a
reported root lies under the boundary. -/
theorem boundary_invariants_witness :
    find_project_root fsProj ["home", "u"] ["home", "u"] = none ∧
    search_boundary ["home", "u"] ["home", "u", "proj", "sub", "x"] <+:
      ["home", "u", "proj"] := by
  constructor
  · exact (boundary_invariants fsProj ["home", "u"] ["home", "u"]).2.2.2 (by decide)
  · exact (boundary_invariants fsProj ["home", "u"]
      ["home", "u", "proj", "sub", "x"]).2.2.1 ["home", "u", "proj"] (by decide)

/-- C10: a marker sitting directly in the boundary directory is never
matched: when every directory strictly below the boundary on the upward
path scans clean, the finder reports not found, whatever the boundary
directory itself contains. -/
theorem boundary_marker_invisible (fs : FS) (home s : List String)
    (hclean : ∀ k, k < s.length + 1 → (search_boundary home s).length < k →
      scanDir fs (s.take k) = none) :
    find_project_root fs home s = none := by
  unfold find_project_root
  have hnone := go_none fs (s.length + 1) s (search_boundary home s) (by omega)
    (search_boundary_prefix_start home s) (fun k hk1 hk2 => hclean k (by omega) hk1)
  rw [show find_project_root_recurse fs s (search_boundary home s) =
    Except.ok none from hnone]

/-- Closed instance of C10: a .git directory directly inside the home
directory is invisible from a start below the home directory. -/
theorem boundary_marker_invisible_witness :
    find_project_root fsHomeGit ["home", "u"] ["home", "u", "a"] = none :=
  boundary_marker_invisible fsHomeGit ["home", "u"] ["home", "u", "a"] (by decide)

/-! ## Claim theorems on the dispatcher -/

/-- C9 as amended: with only-update-kernel the dispatcher returns after
the bind-address step and the jupyterlab probe but before the password
step and dispatch: the final argument vector is exactly the passthrough
arguments followed by the bind-address pair, so no password, token or
password-required argument is appended by the launcher, no server entry
point is invoked and no exit code is set, while the kernel reinstall has
already happened. -/
theorem only_update_kernel_frame (args : Args) (env : Env)
    (h : args.only_update_kernel = true) :
    (main args env).server = ServerCall.idle ∧
    (main args env).exit_code = none ∧
    (main args env).argv = (env.sys_executable.data :: env.rest_of_args) ++
      ["--NotebookApp.ip".data,
        match args.ip with
        | some ip => ip.data
        | none => "127.0.0.1".data] ∧
    (main args env).wrote_kernel_spec = env.ipykernel_importable ∧
    (main args env).kernel_name =
      kernel_name_of (find_project_root env.fs env.home env.cwd) := by
  simp [main, h]

/-- C9, counterexample to the claim as stated: with only-update-kernel
the dispatcher has already applied the bind-address argument when it
returns, so the return is not before the bind-address step. -/
theorem only_update_kernel_counterexample :
    (main argsOnlyUpdate envAll).server = ServerCall.idle ∧
    "--NotebookApp.ip".data ∈ (main argsOnlyUpdate envAll).argv :=
  ⟨by decide, by decide⟩

/-- Closed instance of the amended C9. -/
theorem only_update_kernel_frame_witness :
    (main argsOnlyUpdate envAll).server = ServerCall.idle ∧
    (main argsOnlyUpdate envAll).exit_code = none :=
  ⟨(only_update_kernel_frame argsOnlyUpdate envAll rfl).1,
    (only_update_kernel_frame argsOnlyUpdate envAll rfl).2.1⟩

/-- C8 as amended: main sets exit code 1 exactly when the run is not an
only-update-kernel early return, the notebook branch is reached because
the notebook flag was given or jupyterlab is not importable, and jupyter
core is not importable. In particular both servers missing forces exit
code 1 when no early return happens, but the exit can also occur with
jupyterlab importable when the notebook flag forces the notebook
branch. -/
theorem exit_code_one_iff (args : Args) (env : Env) :
    (main args env).exit_code = some 1 ↔
      args.only_update_kernel = false ∧
      (args.notebook = true ∨ env.jupyterlab_importable = false) ∧
      env.jupyter_core_importable = false := by
  cases h1 : args.only_update_kernel <;>
    cases h2 : args.notebook <;>
      cases h3 : env.jupyterlab_importable <;>
        cases h4 : env.jupyter_core_importable <;>
          simp [main, h1, h2, h3, h4]

/-- C8, counterexample to the claim as stated: a run with the notebook
flag while jupyterlab is importable and jupyter core is not exits with
code 1 although one server implementation is importable. -/
theorem exit_code_counterexample :
    (main argsNbFlag envNoCore).exit_code = some 1 ∧
    envNoCore.jupyterlab_importable = true :=
  ⟨by decide, rfl⟩

/-- Closed instance of the amended C8. -/
theorem exit_code_one_iff_witness :
    (main argsNbFlag envNoCore).exit_code = some 1 :=
  (exit_code_one_iff argsNbFlag envNoCore).mpr ⟨rfl, Or.inl rfl, rfl⟩

/-- C5 as amended: with no-password and lab mode selected, the value
after the password option is the encoded empty-password credential,
never the empty string, even when an explicit password was also given;
with no-password and notebook mode selected and no explicit password,
the value after the password option is the literal empty string, with an
empty token and the password-required option set to False. -/
theorem no_password_mode_rules (args : Args) (env : Env) :
    (args.no_password = true → args.notebook = false →
      env.jupyterlab_importable = true → args.only_update_kernel = false →
      ∃ pre, (main args env).argv = pre ++
        ["--NotebookApp.password".data, make_password [] env.salt,
         "--NotebookApp.token".data, [],
         "--NotebookApp.password_required".data, "False".data,
         "--MultiKernelManager.default_kernel_name".data,
         (kernel_name_of (find_project_root env.fs env.home env.cwd)).data] ∧
        make_password [] env.salt ≠ []) ∧
    (args.no_password = true → args.only_update_kernel = false →
      (args.notebook = true ∨ env.jupyterlab_importable = false) →
      env.jupyter_core_importable = true → args.password = none →
      ∃ pre, (main args env).argv = pre ++
        ["--NotebookApp.password".data, [],
         "--NotebookApp.token".data, [],
         "--NotebookApp.password_required".data, "False".data]) := by
  constructor
  · intro h1 h2 h3 h4
    refine ⟨(env.sys_executable.data :: env.rest_of_args) ++
      ["--NotebookApp.ip".data,
        match args.ip with
        | some ip => ip.data
        | none => "127.0.0.1".data], ?_, make_password_ne_nil [] env.salt⟩
    simp [main, h1, h2, h3, h4]
  · intro h1 h2 h3 h4 h5
    refine ⟨env.sys_executable.data :: "notebook".data ::
      (env.rest_of_args ++
        ["--NotebookApp.ip".data,
          match args.ip with
          | some ip => ip.data
          | none => "127.0.0.1".data]), ?_⟩
    rcases h3 with h3 | h3
    · simp [main, h1, h2, h3, h4, h5]
    · simp [main, h1, h2, h3, h4, h5]

/-- C5, counterexample to the claim as stated: in notebook mode with
no-password and an explicit password, the value after the password
option is the encoding of the explicit password, not the literal empty
string. -/
theorem no_password_notebook_counterexample :
    valueAfter (main argsNbNoPwWithPw envAll).argv ("--NotebookApp.password".data) =
      some (make_password ['x'] 0) ∧
    make_password ['x'] 0 ≠ [] :=
  ⟨by decide, by decide⟩

/-- Closed instance of the amended C5, in lab mode and in notebook
mode. -/
theorem no_password_mode_rules_witness :
    (∃ pre, (main argsLabNoPw envAll).argv = pre ++
      ["--NotebookApp.password".data, make_password [] envAll.salt,
       "--NotebookApp.token".data, [],
       "--NotebookApp.password_required".data, "False".data,
       "--MultiKernelManager.default_kernel_name".data,
       (kernel_name_of (find_project_root envAll.fs envAll.home envAll.cwd)).data] ∧
      make_password [] envAll.salt ≠ []) ∧
    (∃ pre, (main argsNbNoPw envAll).argv = pre ++
      ["--NotebookApp.password".data, [],
       "--NotebookApp.token".data, [],
       "--NotebookApp.password_required".data, "False".data]) :=
  ⟨(no_password_mode_rules argsLabNoPw envAll).1 rfl rfl rfl rfl,
    (no_password_mode_rules argsNbNoPw envAll).2 rfl rfl (Or.inl rfl) rfl rfl⟩

end NbCli
